import Mathlib

set_option maxRecDepth 10000

/-!
Shallow embedding of the collection-and-cache subsystem of the repository
(`backend/app/services/collectors/cache_manager.py`,
`backend/app/services/collectors/base_collector.py`,
`backend/app/services/data_collector.py`) together with theorems settling
the frozen claims about it.

Modelling conventions:
* `datetime` instants are natural numbers counting seconds; a TTL of
  `ttl_hours` hours expires at `timestamp + ttl_hours * 3600`, mirroring
  `timedelta(hours=ttl_hours)`.
* Python floats are modelled by rational numbers.
* An `md5` hex digest is modelled by the string that is hashed: the code
  only compares digests for equality, and md5 is idealized as injective,
  so a digest is identified with its preimage.
* A partition (`OrderedDict`) is a list of key/entry pairs in the
  dictionary's order: the first element is the least recently used slot
  (the one `next(iter(...))` returns).  Reachable stores have pairwise
  distinct keys.
* A Python `set` of hashes is modelled by the list of its elements in
  insertion order; where the code enumerates the set (`list(the_set)`),
  whose order CPython leaves unspecified, the enumeration is an explicit
  parameter ranging over permutations of the elements.
-/

namespace SparkCache

/-- Embedding of `CacheEntry` (cache_manager.py).  `timestamp` is the
creation instant, `last_accessed` mirrors the field of the same name,
`size_bytes` the stored size estimate. -/
structure CacheEntry where
  data : String
  timestamp : Nat
  ttl_hours : Nat
  access_count : Nat
  last_accessed : Nat
  size_bytes : Nat
deriving Repr, DecidableEq

/-- Embedding of `CacheEntry.__post_init__`: `last_accessed` starts equal to
`timestamp` and `size_bytes` is the UTF-8 byte length of the payload
(`len(str(self.data).encode('utf-8'))`). -/
def mkCacheEntry (data : String) (now ttl_hours : Nat) : CacheEntry :=
  { data := data
    timestamp := now
    ttl_hours := ttl_hours
    access_count := 0
    last_accessed := now
    size_bytes := data.utf8ByteSize }

/-- Embedding of `CacheEntry.is_expired`:
`datetime.utcnow() > self.timestamp + timedelta(hours=self.ttl_hours)`. -/
def CacheEntry.is_expired (e : CacheEntry) (now : Nat) : Bool :=
  decide (now > e.timestamp + e.ttl_hours * 3600)

/-- Embedding of `CacheEntry.touch`: bump `access_count`, refresh
`last_accessed`. -/
def CacheEntry.touch (e : CacheEntry) (now : Nat) : CacheEntry :=
  { e with access_count := e.access_count + 1, last_accessed := now }

/-- One cache partition (`OrderedDict`), least recently used slot first. -/
abbrev Store := List (String × CacheEntry)

/-- Total of the live entries' size estimates
(`sum(entry.size_bytes for entry in cache_store.values())`). -/
def storeSize (s : Store) : Nat :=
  (List.map (fun p => p.2.size_bytes) s).sum

/-- First-match key lookup, the model of `cache_store[key]` /
`key in cache_store`. -/
def storeLookup : Store → String → Option CacheEntry
  | [], _ => none
  | (k', e) :: rest, k => if k' = k then some e else storeLookup rest k

/-- Embedding of `cache_store.pop(key)` (reachable stores have unique keys,
so removing every pair with the key coincides with popping the one). -/
def removeKey : Store → String → Store
  | [], _ => []
  | (k', e) :: rest, k =>
      if k' = k then removeKey rest k else (k', e) :: removeKey rest k

/-- Embedding of `cache_store[key] = entry`: an existing key keeps its
position in the order and gets the new entry; a fresh key is appended at
the most-recently-used end. -/
def dictAssign : Store → String → CacheEntry → Store
  | [], k, e => [(k, e)]
  | (k', e') :: rest, k, e =>
      if k' = k then (k, e) :: rest else (k', e') :: dictAssign rest k e

/-- Embedding of `CacheManager._ensure_memory_capacity`: while the current
total plus the incoming size exceeds the partition budget
`max_memory_bytes // 3` and the store is nonempty, pop the least recently
used (first) slot. -/
def ensure_memory_capacity (maxMem required_bytes : Nat) : Store → Store
  | [] => []
  | e :: rest =>
      if storeSize (e :: rest) + required_bytes > maxMem / 3 then
        ensure_memory_capacity maxMem required_bytes rest
      else e :: rest

/-- Embedding of the store mutation performed by `CacheManager.set` for an
already-built entry: ensure capacity for `entry.size_bytes`, then assign. -/
def set_entry_raw (maxMem : Nat) (s : Store) (key : String) (e : CacheEntry) : Store :=
  dictAssign (ensure_memory_capacity maxMem e.size_bytes s) key e

/-- Embedding of `CacheManager.set`: build the entry from the payload at
instant `now` with the given TTL, then insert under memory management. -/
def set_entry (maxMem : Nat) (s : Store) (key : String) (data : String)
    (now ttl_hours : Nat) : Store :=
  set_entry_raw maxMem s key (mkCacheEntry data now ttl_hours)

/-- A sequence of `set` operations on one partition, applied in order
(each list element supplies the key and the prebuilt entry). -/
def apply_sets (maxMem : Nat) (ops : List (String × CacheEntry)) (s : Store) : Store :=
  ops.foldl (fun acc op => set_entry_raw maxMem acc op.1 op.2) s

/-- Embedding of `CacheManager.get`: a missing key misses; an expired entry
is deleted and misses; a hit touches the entry and moves it to the
most-recently-used end. -/
def get_entry (now : Nat) (s : Store) (key : String) : Option String × Store :=
  match storeLookup s key with
  | none => (none, s)
  | some e =>
      if e.is_expired now then (none, removeKey s key)
      else (some e.data, removeKey s key ++ [(key, e.touch now)])

/-- The victim of the next eviction that a `set` needing `required_bytes`
would perform on store `s`: the least-recently-used slot, if the budget
check of `_ensure_memory_capacity` fires at all. -/
def next_eviction (maxMem required_bytes : Nat) (s : Store) : Option (String × CacheEntry) :=
  if storeSize s + required_bytes > maxMem / 3 then s.head? else none

/-- Oldest `last_accessed` instant among the live entries of a store. -/
def min_last_accessed (s : Store) : Option Nat :=
  (List.map (fun p => p.2.last_accessed) s).min?

end SparkCache

namespace SparkCache

lemma storeSize_cons (p : String × CacheEntry) (rest : Store) :
    storeSize (p :: rest) = p.2.size_bytes + storeSize rest := by
  simp [storeSize]

lemma ensure_memory_capacity_spec (maxMem r : Nat) (s : Store) :
    ensure_memory_capacity maxMem r s = [] ∨
      storeSize (ensure_memory_capacity maxMem r s) + r ≤ maxMem / 3 := by
  induction s with
  | nil => exact Or.inl rfl
  | cons p rest ih =>
      by_cases h : storeSize (p :: rest) + r > maxMem / 3
      · simpa [ensure_memory_capacity, h] using ih
      · right
        simpa [ensure_memory_capacity, h] using Nat.le_of_not_lt h

lemma storeSize_dictAssign_le (s : Store) (k : String) (e : CacheEntry) :
    storeSize (dictAssign s k e) ≤ storeSize s + e.size_bytes := by
  induction s with
  | nil => simp [dictAssign, storeSize]
  | cons p rest ih =>
      by_cases h : p.1 = k
      · cases p with
        | mk k' e' =>
          simp only [dictAssign]
          rw [if_pos h]
          simp only [storeSize_cons]
          omega
      · cases p with
        | mk k' e' =>
          simp only [dictAssign]
          rw [if_neg h]
          simp only [storeSize_cons]
          omega

lemma ensure_memory_capacity_of_large (maxMem r : Nat) (s : Store)
    (h : maxMem / 3 < r) : ensure_memory_capacity maxMem r s = [] := by
  induction s with
  | nil => rfl
  | cons p rest ih =>
      have hcond : storeSize (p :: rest) + r > maxMem / 3 := by omega
      simpa [ensure_memory_capacity, hcond] using ih

lemma storeSize_set_entry_raw_le (maxMem : Nat) (s : Store) (k : String)
    (e : CacheEntry) (h : e.size_bytes ≤ maxMem / 3) :
    storeSize (set_entry_raw maxMem s k e) ≤ maxMem / 3 := by
  unfold set_entry_raw
  rcases ensure_memory_capacity_spec maxMem e.size_bytes s with hemp | hle
  · rw [hemp]
    simpa [dictAssign, storeSize] using h
  · calc storeSize (dictAssign (ensure_memory_capacity maxMem e.size_bytes s) k e)
        ≤ storeSize (ensure_memory_capacity maxMem e.size_bytes s) + e.size_bytes :=
          storeSize_dictAssign_le _ _ _
      _ ≤ maxMem / 3 := hle

/-- C1: for every sequence of `set` operations on one partition, immediately
after each `set` the total of the live entries' size estimates stays within
the partition budget `max_memory_bytes // 3`, provided no single entry's
estimate exceeds that budget; and a `set` of an entry that alone exceeds
the budget evicts everything else, leaving that entry as the sole occupant
of the partition. -/
theorem memory_bound_after_each_set :
    (∀ (maxMem : Nat) (ops : List (String × CacheEntry)) (n : Nat),
        (∀ p ∈ ops, p.2.size_bytes ≤ maxMem / 3) →
        storeSize (apply_sets maxMem (ops.take n) []) ≤ maxMem / 3) ∧
    (∀ (maxMem : Nat) (s : Store) (k : String) (e : CacheEntry),
        maxMem / 3 < e.size_bytes →
        set_entry_raw maxMem s k e = [(k, e)]) := by
  constructor
  · intro maxMem ops n hops
    have key : ∀ (l : List (String × CacheEntry)) (s : Store),
        (∀ p ∈ l, p.2.size_bytes ≤ maxMem / 3) →
        storeSize s ≤ maxMem / 3 →
        storeSize (apply_sets maxMem l s) ≤ maxMem / 3 := by
      intro l
      induction l with
      | nil => intro s _ hs; simpa [apply_sets] using hs
      | cons p rest ih =>
          intro s hl hs
          have hp : p.2.size_bytes ≤ maxMem / 3 := hl p (List.mem_cons_self p rest)
          have hrest : ∀ q ∈ rest, q.2.size_bytes ≤ maxMem / 3 :=
            fun q hq => hl q (List.mem_cons_of_mem p hq)
          have hstep : storeSize (set_entry_raw maxMem s p.1 p.2) ≤ maxMem / 3 :=
            storeSize_set_entry_raw_le maxMem s p.1 p.2 hp
          simpa [apply_sets] using ih (set_entry_raw maxMem s p.1 p.2) hrest hstep
    exact key (ops.take n) []
      (fun p hp => hops p (List.mem_of_mem_take hp))
      (by simp [storeSize])
  · intro maxMem s k e h
    unfold set_entry_raw
    rw [ensure_memory_capacity_of_large maxMem e.size_bytes s h]
    rfl

set_option maxRecDepth 4000 in
/-- Witness for C1: a concrete run of three 40-byte inserts against a
100-byte budget stays within the budget, and a 200-byte entry alone
occupies the partition. -/
theorem memory_bound_after_each_set_witness :
    storeSize (apply_sets 300
      (List.take 3 [("a", mkCacheEntry (String.mk (List.replicate 40 'a')) 1 6),
        ("b", mkCacheEntry (String.mk (List.replicate 40 'b')) 2 6),
        ("c", mkCacheEntry (String.mk (List.replicate 40 'c')) 3 6)]) []) ≤ 300 / 3 ∧
    set_entry_raw 300 [] "k" (mkCacheEntry (String.mk (List.replicate 200 'x')) 1 6) =
      [("k", mkCacheEntry (String.mk (List.replicate 200 'x')) 1 6)] :=
  ⟨memory_bound_after_each_set.1 300 _ 3 (by decide),
   memory_bound_after_each_set.2 300 [] "k" _ (by decide)⟩

lemma storeLookup_removeKey : ∀ (s : Store) (k : String),
    storeLookup (removeKey s k) k = none
  | [], _ => rfl
  | (k', e') :: rest, k => by
      by_cases h : k' = k
      · simp only [removeKey]
        rw [if_pos h]
        exact storeLookup_removeKey rest k
      · simp only [removeKey]
        rw [if_neg h]
        simp only [storeLookup]
        rw [if_neg h]
        exact storeLookup_removeKey rest k

lemma mem_removeKey_of_mem : ∀ (s : Store) (k : String) (q : String × CacheEntry),
    q ∈ s → q.1 ≠ k → q ∈ removeKey s k
  | [], _, _, hq, _ => absurd hq (List.not_mem_nil _)
  | (k', e') :: rest, k, q, hq, hne => by
      rcases List.mem_cons.mp hq with h1 | h2
      · subst h1
        simp only [removeKey]
        rw [if_neg hne]
        exact List.mem_cons_self _ _
      · by_cases h : k' = k
        · simp only [removeKey]
          rw [if_pos h]
          exact mem_removeKey_of_mem rest k q h2 hne
        · simp only [removeKey]
          rw [if_neg h]
          exact List.mem_cons_of_mem _ (mem_removeKey_of_mem rest k q h2 hne)

/-- C3 (amended): the eviction performed by a `set` removes the front of the
partition order; whenever that order is nondecreasing in `lastAccessedAt`
(which holds as long as no `set` has overwritten an existing live key), the
victim has the oldest `lastAccessedAt` among all live entries — and a hit
`get` touches the entry and moves it to the most-recently-used (last)
position, keeping every other entry live. -/
theorem lru_eviction_amended :
    (∀ (maxMem r : Nat) (s : Store),
        List.Pairwise (fun a b => a.2.last_accessed ≤ b.2.last_accessed) s →
        ∀ p, next_eviction maxMem r s = some p →
          ∀ q ∈ s, p.2.last_accessed ≤ q.2.last_accessed) ∧
    (∀ (now : Nat) (s : Store) (k : String) (e : CacheEntry),
        storeLookup s k = some e → e.is_expired now = false →
        ((get_entry now s k).2.getLast? = some (k, e.touch now) ∧
          ∀ q ∈ s, q.1 ≠ k → q ∈ (get_entry now s k).2)) := by
  constructor
  · intro maxMem r s hsort p hp q hq
    unfold next_eviction at hp
    by_cases hcond : storeSize s + r > maxMem / 3
    · rw [if_pos hcond] at hp
      cases s with
      | nil => cases hp
      | cons a rest =>
          have hpa : p = a := by
            simpa [List.head?] using hp.symm
          subst hpa
          rcases List.mem_cons.mp hq with hq | hq
          · subst hq; exact le_rfl
          · exact (List.pairwise_cons.mp hsort).1 q hq
    · rw [if_neg hcond] at hp
      cases hp
  · intro now s k e hlook hexp
    have hget : get_entry now s k =
        (some e.data, removeKey s k ++ [(k, e.touch now)]) := by
      simp [get_entry, hlook, hexp]
    constructor
    · rw [hget]
      exact List.getLast?_concat _
    · intro q hq hne
      rw [hget]
      exact List.mem_append_left _ (mem_removeKey_of_mem s k q hq hne)

/-- Witness for C3 (amended): on a concrete sorted two-entry partition the
next eviction removes the entry with the oldest `lastAccessedAt`, and a
`get` of "a" moves it to the most-recently-used end. -/
theorem lru_eviction_amended_witness :
    (∀ q ∈ [("a", mkCacheEntry "v" 1 6), ("b", mkCacheEntry "w" 2 6)],
        (mkCacheEntry "v" 1 6).last_accessed ≤ q.2.last_accessed) ∧
    (get_entry 10 [("a", mkCacheEntry "v" 1 6), ("b", mkCacheEntry "w" 2 6)]
        "a").2.getLast? = some ("a", (mkCacheEntry "v" 1 6).touch 10) :=
  ⟨lru_eviction_amended.1 9 100
      [("a", mkCacheEntry "v" 1 6), ("b", mkCacheEntry "w" 2 6)]
      (by decide) ("a", mkCacheEntry "v" 1 6) (by decide),
   (lru_eviction_amended.2 10
      [("a", mkCacheEntry "v" 1 6), ("b", mkCacheEntry "w" 2 6)]
      "a" (mkCacheEntry "v" 1 6) (by decide) (by decide)).1⟩

/-- A 30-byte payload used by the LRU counterexample. -/
def d30 : String := String.mk (List.replicate 30 'a')

/-- Partition obtained (budget `300 // 3 = 100` bytes) by `set "a"` at time
1, `set "b"` at time 2, then `set "a"` again at time 3: the overwrite keeps
"a" at the least-recently-used front while refreshing its
`lastAccessedAt`. -/
def lruCounterStore : Store :=
  set_entry 300 (set_entry 300 (set_entry 300 [] "a" d30 1 6) "b" d30 2 6) "a" d30 3 6

set_option maxRecDepth 4000 in
/-- Counterexample to C3 as stated: in `lruCounterStore` the live entries
are "a" with `lastAccessedAt = 3` and "b" with `lastAccessedAt = 2` (oldest
is "b"), yet the next eviction performed during a 45-byte `set` removes
"a" — the victim is the front of the order, not the entry with the oldest
`lastAccessedAt`. -/
theorem lru_oldest_counterexample :
    List.map (fun p => (p.1, p.2.last_accessed)) lruCounterStore = [("a", 3), ("b", 2)] ∧
    min_last_accessed lruCounterStore = some 2 ∧
    (next_eviction 300 45 lruCounterStore).map
      (fun p => (p.1, p.2.last_accessed)) = some ("a", 3) := by
  decide

/-- C5: a `get` on a key whose entry satisfies `now > createdAt + ttl`
returns absent and removes the entry from the partition (no LRU pressure
needed). -/
theorem ttl_get_expired_removes :
    ∀ (now : Nat) (s : Store) (k : String) (e : CacheEntry),
      storeLookup s k = some e →
      now > e.timestamp + e.ttl_hours * 3600 →
      get_entry now s k = (none, removeKey s k) ∧
      storeLookup (get_entry now s k).2 k = none := by
  intro now s k e hlook hexp
  have hb : e.is_expired now = true := by
    unfold CacheEntry.is_expired
    exact decide_eq_true hexp
  have hget : get_entry now s k = (none, removeKey s k) := by
    simp [get_entry, hlook, hb]
  exact ⟨hget, by rw [hget]; exact storeLookup_removeKey s k⟩

/-- Witness for C5: a concrete entry created at time 0 with a 1-hour TTL is
absent and removed by a `get` at time 3700. -/
theorem ttl_get_expired_removes_witness :
    get_entry 3700 [("k", mkCacheEntry "v" 0 1)] "k" =
      (none, removeKey [("k", mkCacheEntry "v" 0 1)] "k") ∧
    storeLookup (get_entry 3700 [("k", mkCacheEntry "v" 0 1)] "k").2 "k" = none :=
  ttl_get_expired_removes 3700 [("k", mkCacheEntry "v" 0 1)] "k"
    (mkCacheEntry "v" 0 1) (by decide) (by decide)

/-- Embedding of `CacheManager.generate_content_hash`:
`md5(f"{title[:100]}{content[:200]}{source_url}")`.  The md5 digest is
idealized as injective, so the hash is identified with the hashed string. -/
def generate_content_hash (title content source_url : String) : String :=
  title.take 100 ++ content.take 200 ++ source_url

/-- State of the content deduplicator: `processed_content_hashes` in
insertion order, plus the `duplicate_blocks` statistic. -/
structure DedupState where
  hashes : List String
  duplicate_blocks : Nat
deriving Repr, DecidableEq

/-- Embedding of `hash_list[-7500:]`: the last 7500 elements of the
enumerated hash list. -/
def keep_last_7500 (hash_list : List String) : List String :=
  hash_list.drop (hash_list.length - 7500)

/-- Embedding of `CacheManager.is_duplicate_content`: membership check in
the seen-hash set, insertion as a side effect on a miss, and pruning when
the set grows past 10000.  The code enumerates the Python set with
`list(self.processed_content_hashes)`, whose order CPython does not tie to
insertion order; `enum` is that enumeration, an arbitrary permutation of
the elements. -/
def is_duplicate_content (enum : List String → List String) (st : DedupState)
    (title content source_url : String) : Bool × DedupState :=
  let content_hash := generate_content_hash title content source_url
  if content_hash ∈ st.hashes then
    (true, { st with duplicate_blocks := st.duplicate_blocks + 1 })
  else
    let inserted := st.hashes ++ [content_hash]
    if inserted.length > 10000 then
      (false, { st with hashes := keep_last_7500 (enum inserted) })
    else
      (false, { st with hashes := inserted })

/-- C4: a first duplicate check on a fresh input returns false and inserts
the content hash; any check on an input whose hash is already seen returns
true and leaves the seen set unchanged; and any further non-pruning check
(on any input) preserves a seen hash — so every subsequent call with the
identical inputs returns true as long as pruning is not triggered. -/
theorem dedup_idempotent :
    ∀ (enum : List String → List String) (st : DedupState) (t c u : String),
      generate_content_hash t c u ∉ st.hashes →
      st.hashes.length < 10000 →
      ((is_duplicate_content enum st t c u).1 = false ∧
        (is_duplicate_content enum st t c u).2.hashes =
          st.hashes ++ [generate_content_hash t c u]) ∧
      (∀ st' : DedupState, generate_content_hash t c u ∈ st'.hashes →
        (is_duplicate_content enum st' t c u).1 = true ∧
        (is_duplicate_content enum st' t c u).2.hashes = st'.hashes) ∧
      (∀ (st' : DedupState) (t' c' u' : String),
        st'.hashes.length < 10000 →
        generate_content_hash t c u ∈ st'.hashes →
        generate_content_hash t c u ∈
          (is_duplicate_content enum st' t' c' u').2.hashes) := by
  intro enum st t c u hfresh hlen
  refine ⟨?_, ?_, ?_⟩
  · have hcond : ¬ 10000 < st.hashes.length + 1 := by omega
    constructor
    · simp [is_duplicate_content, hfresh, hcond]
    · simp [is_duplicate_content, hfresh, hcond]
  · intro st' hmem
    constructor
    · simp [is_duplicate_content, hmem]
    · simp [is_duplicate_content, hmem]
  · intro st' t' c' u' hlen' hmem
    by_cases hdup : generate_content_hash t' c' u' ∈ st'.hashes
    · simpa [is_duplicate_content, hdup] using hmem
    · have hcond : ¬ 10000 < st'.hashes.length + 1 := by omega
      have hform : (is_duplicate_content enum st' t' c' u').2.hashes =
          st'.hashes ++ [generate_content_hash t' c' u'] := by
        simp [is_duplicate_content, hdup, hcond]
      rw [hform]
      exact List.mem_append_left _ hmem

/-- Witness for C4: with the identity enumeration and an empty seen set,
the first check of ("X","Y","Z") returns false and inserts its hash, a
check on a state containing the hash returns true without changing the
set, and a later non-pruning check preserves the hash. -/
theorem dedup_idempotent_witness :
    ((is_duplicate_content id ⟨[], 0⟩ "X" "Y" "Z").1 = false ∧
      (is_duplicate_content id ⟨[], 0⟩ "X" "Y" "Z").2.hashes =
        [] ++ [generate_content_hash "X" "Y" "Z"]) ∧
    (∀ st' : DedupState, generate_content_hash "X" "Y" "Z" ∈ st'.hashes →
      (is_duplicate_content id st' "X" "Y" "Z").1 = true ∧
      (is_duplicate_content id st' "X" "Y" "Z").2.hashes = st'.hashes) ∧
    (∀ (st' : DedupState) (t' c' u' : String),
      st'.hashes.length < 10000 →
      generate_content_hash "X" "Y" "Z" ∈ st'.hashes →
      generate_content_hash "X" "Y" "Z" ∈
        (is_duplicate_content id st' t' c' u').2.hashes) :=
  dedup_idempotent id ⟨[], 0⟩ "X" "Y" "Z" (by decide) (by decide)

/-- 10000 distinct hashes "t0", "t1", ..., "t9999" in insertion order. -/
def bigHashList : List String :=
  (List.range 10000).map (fun n => "t" ++ toString n)

/-- A seen-hash state holding `bigHashList`, so that the next fresh
insertion triggers the pruning branch. -/
def dedupBigState : DedupState := ⟨bigHashList, 0⟩

lemma dedupBigState_hashes : dedupBigState.hashes = bigHashList := by
  simp only [dedupBigState]

lemma bigHashList_length : bigHashList.length = 10000 := by
  simp [bigHashList]

lemma x_not_mem_bigHashList : "x" ∉ bigHashList := by
  intro hmem
  rcases List.mem_map.mp hmem with ⟨n, _, heq⟩
  have hd : ("t" ++ toString n).data = "x".data := congrArg String.data heq
  have hd' : 't' :: (toString n).data = ['x'] := hd
  injection hd' with h1 _
  exact absurd h1 (by decide)

lemma keep_last_7500_cons_10000 (a : String) (lst : List String)
    (h : lst.length = 10000) : keep_last_7500 (a :: lst) = lst.drop 2500 := by
  unfold keep_last_7500
  simp only [List.length_cons, h]
  rw [show (10000 + 1 - 7500 : Nat) = 2500 + 1 from rfl]
  exact List.drop_succ_cons

/-- C6 (code bug): the enumeration `list(the_set)` is an arbitrary
permutation of the set's elements, so pruning keeps the last 7500 of an
arbitrary order, not the most recently inserted 7500: with the reversed
enumeration — a legal permutation — the 10001st check inserts its fresh
hash and then prunes it away immediately, even though it is the single
most recently inserted hash. -/
theorem dedup_prune_order_bug :
    (List.reverse (dedupBigState.hashes ++ ["x"])).Perm
      (dedupBigState.hashes ++ ["x"]) ∧
    (is_duplicate_content List.reverse dedupBigState "x" "" "").1 = false ∧
    generate_content_hash "x" "" "" ∉
      (is_duplicate_content List.reverse dedupBigState "x" "" "").2.hashes := by
  have hhash : generate_content_hash "x" "" "" = "x" := rfl
  have hx : generate_content_hash "x" "" "" ∉ dedupBigState.hashes := by
    rw [hhash, dedupBigState_hashes]
    exact x_not_mem_bigHashList
  have hlen : dedupBigState.hashes.length = 10000 := by
    rw [dedupBigState_hashes]
    exact bigHashList_length
  have hcond : 10000 < dedupBigState.hashes.length + 1 := by omega
  have h1 : (is_duplicate_content List.reverse dedupBigState "x" "" "").1 = false := by
    simp [is_duplicate_content, hx, hcond]
  have h2 : (is_duplicate_content List.reverse dedupBigState "x" "" "").2.hashes =
      keep_last_7500 (List.reverse (dedupBigState.hashes ++
        [generate_content_hash "x" "" ""])) := by
    simp [is_duplicate_content, hx, hcond]
  refine ⟨List.reverse_perm _, h1, ?_⟩
  intro hcmem
  rw [h2, dedupBigState_hashes, List.reverse_append] at hcmem
  simp only [List.reverse_singleton, List.singleton_append] at hcmem
  have hrev : (List.reverse bigHashList).length = 10000 := by
    rw [List.length_reverse]
    exact bigHashList_length
  rw [keep_last_7500_cons_10000 _ _ hrev] at hcmem
  have h3 : generate_content_hash "x" "" "" ∈ List.reverse bigHashList :=
    List.mem_of_mem_drop hcmem
  rw [hhash] at h3
  exact x_not_mem_bigHashList (List.mem_reverse.mp h3)

end SparkCache

namespace SparkCollector

open SparkCache (generate_content_hash)

/-- Embedding of `CollectorConfig` (base_collector.py) with the source's
defaults. -/
structure CollectorConfig where
  max_concurrent : Nat := 5
  timeout_seconds : Nat := 30
  retry_attempts : Nat := 3
  cache_ttl_hours : Nat := 6
  max_content_length : Nat := 5000
  min_quality_score : ℚ := 3/10
  rate_limit_delay : ℚ := 1
  vercel_memory_limit : Bool := true
deriving Repr, DecidableEq

/-- Embedding of `PainPointData` (base_collector.py). -/
structure PainPointData where
  title : String
  content : String
  source : String
  source_url : String
  sentiment_score : ℚ := 0
  trend_score : ℚ := 1/2
  keywords : List String := []
  category : String := "general"
  confidence : ℚ := 1/2
deriving Repr, DecidableEq

/-- Embedding of `PainPointData.content_hash`:
`md5(f"{self.title[:100]}{self.source}{self.source_url}")` — note that the
`content` field does not enter the hash.  The md5 digest is idealized as
injective, so the hash is identified with the hashed string. -/
def PainPointData.content_hash (p : PainPointData) : String :=
  p.title.take 100 ++ p.source ++ p.source_url

/-- The arithmetic of `PainPointData.quality_score` as a function of the
input signals: title length, content length, keyword count, confidence. -/
def quality_score_raw (title_len content_len keyword_count : Nat)
    (confidence : ℚ) : ℚ :=
  let title_score : ℚ := min ((title_len : ℚ) / 50) 1
  let content_score : ℚ := min ((content_len : ℚ) / 200) 1
  let keyword_score : ℚ := min ((keyword_count : ℚ) / 5) 1
  title_score * (3/10) + content_score * (4/10) +
    keyword_score * (2/10) + confidence * (1/10)

/-- Embedding of `PainPointData.quality_score`. -/
def PainPointData.quality_score (p : PainPointData) : ℚ :=
  quality_score_raw p.title.length p.content.length p.keywords.length p.confidence

/-- Python substring test `needle in haystack` on character lists. -/
def listContains (needle : List Char) : List Char → Bool
  | [] => needle.isEmpty
  | c :: rest => needle.isPrefixOf (c :: rest) || listContains needle rest

/-- Python substring test `needle in haystack` on strings. -/
def strContains (haystack needle : String) : Bool :=
  listContains needle.data haystack.data

/-- The `pain_keywords` list of `BaseCollector._is_pain_point_content`. -/
def pain_keywords : List String :=
  ["problem", "issue", "bug", "error", "fail", "broken", "difficult",
   "hard", "struggle", "challenge", "frustrating", "annoying", "pain",
   "inefficient", "slow", "complex", "confusing", "needs improvement",
   "could be better", "wish there was", "if only", "why doesn\x27t",
   "문제", "불편", "어려움", "힘들", "짜증", "비효율", "개선", "필요",
   "불만", "고민", "걱정", "스트레스", "복잡", "느림", "어렵"]

/-- The `exclude_keywords` list of `BaseCollector._is_pain_point_content`. -/
def exclude_keywords : List String :=
  ["solution", "solved", "fixed", "working", "success", "great", "awesome",
   "해결", "성공", "좋은", "훌륭", "완벽"]

/-- One character of Python's `str.lower()` (ASCII range; the Korean
keywords are unaffected by lowercasing). -/
def py_lower_char (c : Char) : Char :=
  if 'A' ≤ c ∧ c ≤ 'Z' then Char.ofNat (c.toNat + 32) else c

/-- Embedding of Python's `text.lower()`. -/
def py_lower (s : String) : String := ⟨s.data.map py_lower_char⟩

/-- Embedding of `BaseCollector._is_pain_point_content`: count pain and
exclude keywords occurring in the lowercased text; the text qualifies when
`pain_score > exclude_score and pain_score > 0`. -/
def is_pain_point_content (text : String) : Bool :=
  let text_lower := py_lower text
  let pain_score := (pain_keywords.filter (fun kw => strContains text_lower kw)).length
  let exclude_score := (exclude_keywords.filter (fun kw => strContains text_lower kw)).length
  decide (pain_score > exclude_score ∧ pain_score > 0)

/-- Embedding of the `BaseCollector._stats` dictionary. -/
structure CollectorStats where
  total_processed : Nat := 0
  duplicates_filtered : Nat := 0
  quality_filtered : Nat := 0
  api_calls : Nat := 0
  cache_hits : Nat := 0
  errors : List String := []
deriving Repr, DecidableEq

/-- Mutable collector state: the `_seen_hashes` set (insertion order) and
the statistics dictionary. -/
structure CollectorState where
  seen_hashes : List String := []
  stats : CollectorStats := {}
deriving Repr, DecidableEq

/-- Embedding of `BaseCollector._should_include`: duplicate check first,
then the quality threshold, then the pain-content heuristic; the content
hash is recorded only when every check passes. -/
def should_include (cfg : CollectorConfig) (st : CollectorState)
    (p : PainPointData) : Bool × CollectorState :=
  if p.content_hash ∈ st.seen_hashes then
    (false, { st with stats :=
      { st.stats with duplicates_filtered := st.stats.duplicates_filtered + 1 } })
  else if p.quality_score < cfg.min_quality_score then
    (false, { st with stats :=
      { st.stats with quality_filtered := st.stats.quality_filtered + 1 } })
  else if is_pain_point_content (p.title ++ " " ++ p.content) = false then
    (false, { st with stats :=
      { st.stats with quality_filtered := st.stats.quality_filtered + 1 } })
  else
    (true, { st with seen_hashes := st.seen_hashes ++ [p.content_hash] })

/-- A record whose body mentions an alpha release. -/
def hashRecordA : PainPointData :=
  { title := "t", content := "alpha body", source := "reddit-main", source_url := "u" }

/-- The same record with an entirely different body. -/
def hashRecordB : PainPointData :=
  { title := "t", content := "a completely different body", source := "reddit-main",
    source_url := "u" }

lemma append_middle_cancel (w x u y : String) (h : w ++ x ++ u = w ++ y ++ u) :
    x = y := by
  have hd := congrArg String.data h
  simp only [String.data_append, List.append_assoc] at hd
  have h1 := List.append_cancel_left hd
  have h2 := List.append_cancel_right h1
  exact String.ext h2

/-- Counterexample to C7 as stated: two records identical except for their
bodies — which differ within the first 200 characters — still receive the
same `PainPointData.content_hash`, the hash `_should_include` deduplicates
on, because that hash is built from `title[:100] + source + source_url`
and ignores the body. -/
theorem content_hash_ignores_body_counterexample :
    hashRecordA.title = hashRecordB.title ∧
    hashRecordA.source = hashRecordB.source ∧
    hashRecordA.source_url = hashRecordB.source_url ∧
    hashRecordA.content.take 200 ≠ hashRecordB.content.take 200 ∧
    hashRecordA.content_hash = hashRecordB.content_hash := by
  refine ⟨rfl, rfl, rfl, ?_, rfl⟩
  decide

/-- C7 (amended): the cache manager's dedup hash is built from
`title[:100] + content[:200] + source_url`, so records with the same title
and URL whose bodies differ within the first 200 characters hash
differently there; but the per-record hash `PainPointData.content_hash`,
used by the collector's `_should_include` dedup, is built from
`title[:100] + source + source_url` and is insensitive to the body. -/
theorem content_hash_amended :
    (∀ t c c' u : String, c.take 200 ≠ c'.take 200 →
        generate_content_hash t c u ≠ generate_content_hash t c' u) ∧
    (∀ (p : PainPointData) (c' : String),
        PainPointData.content_hash { p with content := c' } = p.content_hash) := by
  constructor
  · intro t c c' u hne heq
    apply hne
    exact append_middle_cancel _ _ _ _ heq
  · intro p c'
    rfl

/-- Witness for C7 (amended): concrete instances of both halves. -/
theorem content_hash_amended_witness :
    generate_content_hash "t" "a" "u" ≠ generate_content_hash "t" "b" "u" ∧
    PainPointData.content_hash { hashRecordA with content := "zz" } =
      hashRecordA.content_hash :=
  ⟨content_hash_amended.1 "t" "a" "b" "u" (by decide),
   content_hash_amended.2 hashRecordA "zz"⟩

/-- C8: the quality score is monotone non-decreasing in each input signal —
title length, content length, keyword count, and confidence — with the
other signals held fixed. -/
theorem quality_score_monotone :
    (∀ (tl tl' cl kc : Nat) (conf : ℚ), tl ≤ tl' →
        quality_score_raw tl cl kc conf ≤ quality_score_raw tl' cl kc conf) ∧
    (∀ (tl cl cl' kc : Nat) (conf : ℚ), cl ≤ cl' →
        quality_score_raw tl cl kc conf ≤ quality_score_raw tl cl' kc conf) ∧
    (∀ (tl cl kc kc' : Nat) (conf : ℚ), kc ≤ kc' →
        quality_score_raw tl cl kc conf ≤ quality_score_raw tl cl kc' conf) ∧
    (∀ (tl cl kc : Nat) (conf conf' : ℚ), conf ≤ conf' →
        quality_score_raw tl cl kc conf ≤ quality_score_raw tl cl kc conf') := by
  refine ⟨?_, ?_, ?_, ?_⟩ <;> intro _ _ _ _ _ h <;>
    simp only [quality_score_raw] <;> gcongr

/-- Witness for C8: concrete monotonicity instances in each signal. -/
theorem quality_score_monotone_witness :
    quality_score_raw 10 100 2 0 ≤ quality_score_raw 20 100 2 0 ∧
    quality_score_raw 10 100 2 0 ≤ quality_score_raw 10 300 2 0 ∧
    quality_score_raw 10 100 2 0 ≤ quality_score_raw 10 100 7 0 ∧
    quality_score_raw 10 100 2 0 ≤ quality_score_raw 10 100 2 1 :=
  ⟨quality_score_monotone.1 10 20 100 2 0 (by decide),
   quality_score_monotone.2.1 10 100 300 2 0 (by decide),
   quality_score_monotone.2.2.1 10 100 2 7 0 (by decide),
   quality_score_monotone.2.2.2 10 100 2 0 1 zero_le_one⟩

/-- C10: a record rejected by `_should_include` for the quality threshold
or the pain-content heuristic leaves the seen-hash set unchanged and only
increments `quality_filtered`; the content hash is recorded exactly when
the record passes every check. -/
theorem reject_leaves_seen_unchanged :
    (∀ (cfg : CollectorConfig) (st : CollectorState) (p : PainPointData),
        p.content_hash ∉ st.seen_hashes →
        (p.quality_score < cfg.min_quality_score ∨
          is_pain_point_content (p.title ++ " " ++ p.content) = false) →
        (should_include cfg st p).1 = false ∧
        (should_include cfg st p).2.seen_hashes = st.seen_hashes ∧
        (should_include cfg st p).2.stats.quality_filtered =
          st.stats.quality_filtered + 1 ∧
        (should_include cfg st p).2.stats.duplicates_filtered =
          st.stats.duplicates_filtered) ∧
    (∀ (cfg : CollectorConfig) (st : CollectorState) (p : PainPointData),
        (should_include cfg st p).1 = true →
        (should_include cfg st p).2.seen_hashes =
          st.seen_hashes ++ [p.content_hash]) ∧
    (∀ (cfg : CollectorConfig) (st : CollectorState) (p : PainPointData),
        (should_include cfg st p).1 = false →
        (should_include cfg st p).2.seen_hashes = st.seen_hashes) := by
  refine ⟨?_, ?_, ?_⟩
  · intro cfg st p hfresh hrej
    rcases hrej with hq | hp
    · simp [should_include, hfresh, hq]
    · by_cases hq : p.quality_score < cfg.min_quality_score
      · simp [should_include, hfresh, hq]
      · simp [should_include, hfresh, hq, hp]
  · intro cfg st p h
    by_cases h1 : p.content_hash ∈ st.seen_hashes <;>
      by_cases h2 : p.quality_score < cfg.min_quality_score <;>
      by_cases h3 : is_pain_point_content (p.title ++ " " ++ p.content) = false <;>
      simp [should_include, h1, h2, h3] at h ⊢
  · intro cfg st p h
    by_cases h1 : p.content_hash ∈ st.seen_hashes <;>
      by_cases h2 : p.quality_score < cfg.min_quality_score <;>
      by_cases h3 : is_pain_point_content (p.title ++ " " ++ p.content) = false <;>
      simp [should_include, h1, h2, h3] at h ⊢

/-- The record used by the C10 witness: too short to clear the default
quality threshold. -/
def lowQualityRecord : PainPointData :=
  { title := "bad", content := "", source := "s", source_url := "u" }

/-- Witness for C10: the low-quality record is rejected by a default-config
collector, the seen-hash set stays empty, and only `quality_filtered` is
bumped. -/
theorem reject_leaves_seen_unchanged_witness :
    (should_include {} {} lowQualityRecord).1 = false ∧
    (should_include {} {} lowQualityRecord).2.seen_hashes =
      (({} : CollectorState)).seen_hashes ∧
    (should_include {} {} lowQualityRecord).2.stats.quality_filtered =
      (({} : CollectorState)).stats.quality_filtered + 1 ∧
    (should_include {} {} lowQualityRecord).2.stats.duplicates_filtered =
      (({} : CollectorState)).stats.duplicates_filtered :=
  reject_leaves_seen_unchanged.1 {} {} lowQualityRecord
    (List.not_mem_nil _)
    (Or.inl (by
      have h : lowQualityRecord.quality_score = quality_score_raw 3 0 0 (1/2) := rfl
      rw [h]
      norm_num [quality_score_raw, min_def]))

/-- State update for the error string recorded after the last failed
attempt: `self._stats["errors"].append(f"Timeout for query: {query}")`. -/
def push_timeout_error (st : CollectorState) (query : String) : CollectorState :=
  { st with stats := { st.stats with
      errors := st.stats.errors ++ ["Timeout for query: " ++ query] } }

/-- The per-item processing loop of `_collect_single_query`'s success path:
`_process_raw_item` (abstracted as `process`, returning `none` when the
item is dropped) followed by `_should_include`. -/
def process_raw_items {α : Type} (cfg : CollectorConfig)
    (process : α → Option PainPointData) (st : CollectorState) (raw : List α) :
    List PainPointData × CollectorState :=
  raw.foldl
    (fun acc item =>
      match process item with
      | none => acc
      | some p =>
          let r := should_include cfg acc.2 p
          if r.1 then (acc.1 ++ [p], r.2) else (acc.1, r.2))
    ([], st)

/-- Embedding of the attempt loop of `BaseCollector._collect_single_query`
(`for attempt in range(self.config.retry_attempts)`).  `fetch attempt`
models `asyncio.wait_for(self._collect_raw_data(...), timeout)`: `none` is
a timeout/exception, `some raw` a successful fetch.  `remaining` counts
loop iterations still to run (initially `retry_attempts`), so the current
attempt index is `retry_attempts - remaining`; the third component of the
result is the number of attempts made. -/
def collect_query_attempts {α : Type} (cfg : CollectorConfig)
    (fetch : Nat → Option (List α)) (process : α → Option PainPointData)
    (query : String) :
    Nat → CollectorState → List PainPointData × CollectorState × Nat
  | 0, st => ([], st, 0)
  | remaining + 1, st =>
      let attempt := cfg.retry_attempts - (remaining + 1)
      match fetch attempt with
      | some raw =>
          let pr := process_raw_items cfg process st raw
          let st' := { pr.2 with stats := { pr.2.stats with
              total_processed := pr.2.stats.total_processed + raw.length,
              api_calls := pr.2.stats.api_calls + 1 } }
          (pr.1, st', 1)
      | none =>
          let st1 := if attempt = cfg.retry_attempts - 1
            then push_timeout_error st query else st
          let r := collect_query_attempts cfg fetch process query remaining st1
          (r.1, r.2.1, r.2.2 + 1)

/-- Embedding of `BaseCollector._collect_single_query`: run the attempt
loop for `retry_attempts` iterations. -/
def collect_single_query {α : Type} (cfg : CollectorConfig)
    (fetch : Nat → Option (List α)) (process : α → Option PainPointData)
    (query : String) (st : CollectorState) :
    List PainPointData × CollectorState × Nat :=
  collect_query_attempts cfg fetch process query cfg.retry_attempts st

/-- A collector configuration with `retry_attempts = 2`. -/
def cfgRetry2 : CollectorConfig := { retry_attempts := 2 }

/-- Counterexample to C2 as stated: with `retryAttempts = 2` and a fetch
that always times out, `_collect_single_query` makes exactly 2 attempts —
not the 3 the claim asserts — while still recording exactly one error and
returning no records. -/
theorem retry_three_attempts_counterexample :
    (collect_single_query cfgRetry2 (fun _ => (none : Option (List PainPointData)))
        some "q" {}).2.2 = 2 ∧
    (collect_single_query cfgRetry2 (fun _ => (none : Option (List PainPointData)))
        some "q" {}).2.2 ≠ 3 ∧
    (collect_single_query cfgRetry2 (fun _ => (none : Option (List PainPointData)))
        some "q" {}).2.1.stats.errors.length = 1 ∧
    (collect_single_query cfgRetry2 (fun _ => (none : Option (List PainPointData)))
        some "q" {}).1 = [] := by
  decide

lemma collect_query_attempts_all_fail {α : Type} (cfg : CollectorConfig)
    (process : α → Option PainPointData) (query : String) :
    ∀ (n : Nat) (st : CollectorState),
      n + 1 ≤ cfg.retry_attempts →
      collect_query_attempts cfg (fun _ => none) process query (n + 1) st =
        ([], push_timeout_error st query, n + 1) := by
  intro n
  induction n with
  | zero =>
      intro st _
      simp [collect_query_attempts]
  | succ m ihm =>
      intro st hle
      have hne : cfg.retry_attempts - (m + 1 + 1) ≠ cfg.retry_attempts - 1 := by
        omega
      have hstep : collect_query_attempts cfg (fun _ => (none : Option (List α)))
          process query (m + 1 + 1) st =
          (let r := collect_query_attempts cfg (fun _ => none) process query (m + 1)
              (if cfg.retry_attempts - (m + 1 + 1) = cfg.retry_attempts - 1
               then push_timeout_error st query else st)
           (r.1, r.2.1, r.2.2 + 1)) := rfl
      rw [hstep]
      rw [if_neg hne]
      rw [ihm st (by omega)]

/-- C2 (amended): a query whose every attempt fails makes exactly
`retryAttempts` attempts (the loop runs `range(retry_attempts)` times, so
the knob counts total attempts, not extra retries), appends exactly one
error entry, and returns an empty record list — provided
`retryAttempts ≥ 1`. -/
theorem retry_bound_amended :
    ∀ (α : Type) (cfg : CollectorConfig) (fetch : Nat → Option (List α))
      (process : α → Option PainPointData) (query : String) (st : CollectorState),
      (∀ n, fetch n = none) →
      1 ≤ cfg.retry_attempts →
      collect_single_query cfg fetch process query st =
        ([], push_timeout_error st query, cfg.retry_attempts) := by
  intro α cfg fetch process query st hfail hra
  have hf : fetch = fun _ => none := funext hfail
  subst hf
  unfold collect_single_query
  obtain ⟨m, hm⟩ : ∃ m, cfg.retry_attempts = m + 1 :=
    ⟨cfg.retry_attempts - 1, by omega⟩
  rw [hm]
  exact collect_query_attempts_all_fail cfg process query m st (by omega)

/-- Witness for C2 (amended): the concrete `retryAttempts = 2` all-failing
run makes 2 attempts, records the timeout error, and returns nothing. -/
theorem retry_bound_amended_witness :
    collect_single_query cfgRetry2 (fun _ => (none : Option (List PainPointData)))
        some "q" {} =
      ([], push_timeout_error {} "q", cfgRetry2.retry_attempts) :=
  retry_bound_amended PainPointData cfgRetry2 (fun _ => none) some "q" {}
    (fun _ => rfl) (by decide)

end SparkCollector

namespace SparkOrchestrator

/-- Embedding of `CollectionResult` (data_collector.py). -/
structure CollectionResult where
  source : String
  collected_count : Nat
  total_processed : Nat
  duplicates_filtered : Nat
  errors : List String
  execution_time : ℚ
  cache_hits : Nat := 0
deriving Repr, DecidableEq

/-- Embedding of `CollectionResult.success_rate`. -/
def CollectionResult.success_rate (r : CollectionResult) : ℚ :=
  if r.total_processed = 0 then 0
  else ((r.collected_count : ℚ) / (r.total_processed : ℚ)) * 100

/-- Embedding of `CollectionResult.efficiency_score`:
`min(success_rate/100 + min(cache_hits / max(total_processed, 1), 0.5), 1.0)`. -/
def CollectionResult.efficiency_score (r : CollectionResult) : ℚ :=
  let base_score := r.success_rate / 100
  let cache_bonus :=
    min ((r.cache_hits : ℚ) / ((max r.total_processed 1 : Nat) : ℚ)) (1/2)
  min (base_score + cache_bonus) 1

/-- Embedding of the aggregation at the end of
`DataCollectorService.collect_all_sources`: the global result sums the
per-source counters and carries the session's error list and time. -/
def aggregate_results (results : List CollectionResult)
    (total_errors : List String) (execution_time : ℚ) : CollectionResult :=
  { source := "all_sources"
    collected_count := (results.map (fun r => r.collected_count)).sum
    total_processed := (results.map (fun r => r.total_processed)).sum
    duplicates_filtered := (results.map (fun r => r.duplicates_filtered)).sum
    errors := total_errors
    execution_time := execution_time
    cache_hits := (results.map (fun r => r.cache_hits)).sum }

/-- C9: the orchestrator's global result sums the per-source accepted and
processed counts, and every result's efficiency score equals
`min(1, successRate/100 + min(cacheHits/max(processed,1), 0.5))`. -/
theorem aggregate_and_efficiency :
    (∀ (results : List CollectionResult) (errs : List String) (t : ℚ),
        (aggregate_results results errs t).collected_count =
          (results.map (fun r => r.collected_count)).sum ∧
        (aggregate_results results errs t).total_processed =
          (results.map (fun r => r.total_processed)).sum) ∧
    (∀ r : CollectionResult,
        r.efficiency_score =
          min 1 (r.success_rate / 100 +
            min ((r.cache_hits : ℚ) / ((max r.total_processed 1 : Nat) : ℚ)) (1/2))) := by
  constructor
  · intro results errs t
    exact ⟨rfl, rfl⟩
  · intro r
    simp only [CollectionResult.efficiency_score]
    rw [min_comm]

end SparkOrchestrator
